import Mathlib

/-!
# Verification of the mumpspy MUMPS binding layer

Shallow embedding of `src/mumpspy.py`: the version registry
(`mumps_c_fields`, `mumps_c_updates`), the layout builder
(`get_mumps_c_fields`), the version arithmetic (`version_to_int`), the
probe-buffer version parsing, and the `MumpsSolver` session operations
(`set_mtx_centralized`, `set_rcd_centralized`, `set_rhs`, `get_schur`,
`expand_schur`, `_mumps_call`, `__del__`).

Modelling conventions:
* ctypes type objects become the inductive `CType`; note that in the source
  `mumps_complex = ctypes.c_double`, so real and complex pointers coincide.
* Python lists of `(name, type)` pairs become `List (String × CType)`.
* Python exceptions become `Except MumpsError`; an operation that can raise
  returns `Except`/`Option`.
* numpy arrays become `NArr`: an object identity (`id`) plus contents
  (`val : List Int`); double-precision values are modelled as integers since
  no claim involves floating-point arithmetic, and `nm.empty` buffers are
  modelled with zero contents since no claim reads them.
* The foreign solver library is a parameter `lib : CStruct → CStruct`;
  each foreign call appends the struct passed to the library to a call
  trace, so that claims about which jobs are invoked are statable.
* Python string operations that do not reduce in the Lean kernel
  (`str.split`, `<` on `str`) are re-implemented structurally on
  `List Char` with the same semantics.
-/

/-- ctypes-level field types as used by the source.  `ptr` is
`ctypes.POINTER`, `arr t k` is the ctypes `t * k` array type. -/
inductive CType where
  | c_int : CType
  | c_uint64 : CType
  | c_double : CType
  | c_char : CType
  | ptr : CType → CType
  | arr : CType → Nat → CType
deriving DecidableEq, Repr

def mumps_int : CType := CType.c_int
def mumps_pint : CType := CType.ptr CType.c_int
def mumps_int8 : CType := CType.c_uint64
def mumps_real : CType := CType.c_double
def mumps_preal : CType := CType.ptr CType.c_double
def mumps_complex : CType := CType.c_double
def mumps_pcomplex : CType := CType.ptr CType.c_double

/-- A struct field: `(name, ctype)`. -/
abbrev MField := String × CType

/-- The base MUMPS 4.10.0 C structure field list (source lines 69-146). -/
def mumps_c_fields : List MField := [
  ("sym", mumps_int),
  ("par", mumps_int),
  ("job", mumps_int),
  ("comm_fortran", mumps_int),
  ("icntl", CType.arr mumps_int 40),
  ("cntl", CType.arr mumps_real 15),
  ("n", mumps_int),
  ("nz_alloc", mumps_int),
  ("nz", mumps_int),
  ("irn", mumps_pint),
  ("jcn", mumps_pint),
  ("a", mumps_pcomplex),
  ("nz_loc", mumps_int),
  ("irn_loc", mumps_pint),
  ("jcn_loc", mumps_pint),
  ("a_loc", mumps_pcomplex),
  ("nelt", mumps_int),
  ("eltptr", mumps_pint),
  ("eltvar", mumps_pint),
  ("a_elt", mumps_pcomplex),
  ("perm_in", mumps_pint),
  ("sym_perm", mumps_pint),
  ("uns_perm", mumps_pint),
  ("colsca", mumps_preal),
  ("rowsca", mumps_preal),
  ("rhs", mumps_pcomplex),
  ("redrhs", mumps_pcomplex),
  ("rhs_sparse", mumps_pcomplex),
  ("sol_loc", mumps_pcomplex),
  ("irhs_sparse", mumps_pint),
  ("irhs_ptr", mumps_pint),
  ("isol_loc", mumps_pint),
  ("nrhs", mumps_int),
  ("lrhs", mumps_int),
  ("lredrhs", mumps_int),
  ("nz_rhs", mumps_int),
  ("lsol_loc", mumps_int),
  ("schur_mloc", mumps_int),
  ("schur_nloc", mumps_int),
  ("schur_lld", mumps_int),
  ("mblock", mumps_int),
  ("nblock", mumps_int),
  ("nprow", mumps_int),
  ("npcol", mumps_int),
  ("info", CType.arr mumps_int 40),
  ("infog", CType.arr mumps_int 40),
  ("rinfo", CType.arr mumps_real 40),
  ("rinfog", CType.arr mumps_real 40),
  ("deficiency", mumps_int),
  ("pivnul_list", mumps_pint),
  ("mapping", mumps_pint),
  ("size_schur", mumps_int),
  ("listvar_schur", mumps_pint),
  ("schur", mumps_pcomplex),
  ("instance_number", mumps_int),
  ("wk_user", mumps_pcomplex),
  ("version_number", CType.arr CType.c_char 16),
  ("ooc_tmpdir", CType.arr CType.c_char 256),
  ("ooc_prefix", CType.arr CType.c_char 64),
  ("write_problem", CType.arr CType.c_char 256),
  ("lwk_user", mumps_int)]

/-- One incremental layout update.  `('replace', name, t)`,
`('delete', name)` and `('new_after', name, x)` of the source; the source
distinguishes a single `(name, type)` tuple from a list after `new_after`
(`insert` vs slice assignment), mirrored by two constructors. -/
inductive Delta where
  | replace : String → CType → Delta
  | delete : String → Delta
  | new_after_one : String → MField → Delta
  | new_after_list : String → List MField → Delta
deriving DecidableEq, Repr

/-- The incremental updates dict (source lines 149-203), as an association
list in declaration order.  Python dicts preserve insertion order. -/
def mumps_c_updates : List (String × List Delta) := [
  ("5.0.0", [
    Delta.new_after_one "icntl" ("keep", CType.arr mumps_int 500),
    Delta.new_after_list "cntl" [
      ("dkeep", CType.arr mumps_real 130),
      ("keep8", CType.arr mumps_int8 150)],
    Delta.new_after_list "rowsca" [
      ("colsca_from_mumps", mumps_int),
      ("rowsca_from_mumps", mumps_int)],
    Delta.replace "version_number" (CType.arr CType.c_char 27)]),
  ("5.1.0", [
    Delta.replace "dkeep" (CType.arr mumps_real 230),
    Delta.new_after_one "nz" ("nnz", mumps_int8),
    Delta.new_after_one "nz_loc" ("nnz_loc", mumps_int8),
    Delta.replace "version_number" (CType.arr CType.c_char 32),
    Delta.new_after_list "lwk_user" [
      ("save_dir", CType.arr CType.c_char 256),
      ("save_prefix", CType.arr CType.c_char 256)]]),
  ("5.2.0", [
    Delta.replace "icntl" (CType.arr mumps_int 60),
    Delta.new_after_one "sol_loc" ("rhs_loc", mumps_pcomplex),
    Delta.new_after_one "isol_loc" ("irhs_loc", mumps_pint),
    Delta.new_after_list "lsol_loc" [
      ("nloc_rhs", mumps_int),
      ("lrhs_loc", mumps_int)],
    Delta.replace "info" (CType.arr mumps_int 80),
    Delta.replace "infog" (CType.arr mumps_int 80),
    Delta.new_after_one "save_prefix" ("metis_options", CType.arr mumps_int 40)]),
  ("5.3.0", [
    Delta.new_after_one "n" ("nblk", mumps_int),
    Delta.new_after_list "a_elt" [
      ("blkptr", mumps_pint),
      ("blkvar", mumps_pint)]]),
  ("5.7.0", [
    Delta.new_after_one "npcol" ("ld_rhsintr", mumps_int),
    Delta.new_after_one "mapping" ("singular_values", mumps_preal),
    Delta.delete "instance_number",
    Delta.replace "ooc_tmpdir" (CType.arr CType.c_char 1024),
    Delta.replace "ooc_prefix" (CType.arr CType.c_char 256),
    Delta.replace "write_problem" (CType.arr CType.c_char 1024),
    Delta.replace "save_dir" (CType.arr CType.c_char 1024),
    Delta.new_after_one "metis_options" ("instance_number", mumps_int)])]

def MIN_SUPPORTED_VERSION : String := "4.10.0"
def MAX_SUPPORTED_VERSION : String := "5.7.999"

/-- Structural model of Python `str.split(sep)` for a one-character
separator (Lean's `String.splitOn` does not reduce in the kernel). -/
def splitOnChar (sep : Char) : List Char → List (List Char)
  | [] => [[]]
  | c :: cs =>
    let r := splitOnChar sep cs
    if c = sep then [] :: r
    else match r with
      | h :: t => (c :: h) :: t
      | [] => [[c]]

/-- Value of a digit string, as computed by Python `int` on a string of
decimal digits. -/
def digitsToNat (cs : List Char) : Nat :=
  cs.foldl (fun a c => a * 10 + (c.toNat - 48)) 0

/-- Model of Python `int(s)` restricted to nonempty all-digit strings;
`none` models the `ValueError` raised on other inputs. -/
def strToNat (cs : List Char) : Option Nat :=
  if cs ≠ [] ∧ cs.all (fun c => 48 ≤ c.toNat ∧ c.toNat ≤ 57) then
    some (digitsToNat cs)
  else none

/-- Convert version string to integer (source lines 206-209,
`'5.2.1' --> 5002001`).  Components that Python `int` would reject never
occur in any claim; they are mapped to `0` to keep the function total. -/
def version_to_int (v : String) : Nat :=
  (((splitOnChar '.' v.data).reverse.enum).map
    (fun p => (strToNat p.2).getD 0 * 10 ^ (3 * p.1))).sum

/-- Lexicographic comparison of code-point lists: Python `<` on `str`. -/
def charListLt : List Char → List Char → Bool
  | [], [] => false
  | [], _ :: _ => true
  | _ :: _, [] => false
  | a :: as, b :: bs =>
    if a.toNat < b.toNat then true
    else if b.toNat < a.toNat then false
    else charListLt as bs

/-- Insert into an ascending list, modelling one step of Python
`list.sort()` on strings. -/
def insortStr (x : String) : List String → List String
  | [] => [x]
  | y :: ys =>
    if charListLt x.data y.data then x :: y :: ys else y :: insortStr x ys

/-- Python `list.sort()` on strings (ascending lexicographic order; the
update keys are pairwise distinct so any correct sort agrees). -/
def pySortStr (l : List String) : List String := l.foldr insortStr []

/-- Errors of the binding layer.  `unsupported_version` is the spec's
`UnsupportedVersionError`, `layout_resolution` the `ValueError` that
`list.index` raises on a missing delta target (spec:
`LayoutResolutionError`), `runtime_error c` the `RuntimeError` that
`_mumps_call` raises with the negative status `c` (spec:
`SolverError(code)`). -/
inductive MumpsError where
  | unsupported_version : MumpsError
  | layout_resolution : MumpsError
  | runtime_error : Int → MumpsError
deriving DecidableEq, Repr

/-- One step of the inner `update_fields` loop (source lines 214-229):
look up the target index with `fk.index` (`none` models the `ValueError`
on a missing target) and apply the update.  `new_after` inserts after the
target via `list.insert` / slice assignment, both modelled with
`take`/`drop` splicing. -/
def apply_update (f : List MField) (uf : Delta) : Option (List MField) :=
  let fk := f.map Prod.fst
  match uf with
  | Delta.replace name t =>
    (fk.findIdx? (· = name)).map (fun idx => f.set idx (name, t))
  | Delta.delete name =>
    (fk.findIdx? (· = name)).map (fun idx => f.eraseIdx idx)
  | Delta.new_after_one name fld =>
    (fk.findIdx? (· = name)).map
      (fun idx => f.take (idx + 1) ++ [fld] ++ f.drop (idx + 1))
  | Delta.new_after_list name flds =>
    (fk.findIdx? (· = name)).map
      (fun idx => f.take (idx + 1) ++ flds ++ f.drop (idx + 1))

/-- `update_fields` (source lines 214-229): fold one version's update list
over the running field list. -/
def update_fields (f : List MField) (update_f : List Delta) : Option (List MField) :=
  update_f.foldlM apply_update f

/-- The `for ukey in update_keys` loop of `get_mumps_c_fields` (source
lines 239-243): apply each version's updates in key order, stopping at the
first key whose version exceeds the target (`break`). -/
def apply_updates_loop (vnum : Nat) : List String → List MField → Option (List MField)
  | [], f => some f
  | k :: rest, f =>
    if version_to_int k > vnum then some f
    else match update_fields f (((mumps_c_updates.lookup k).getD [])) with
      | none => none
      | some f2 => apply_updates_loop vnum rest f2

/-- The sorted update keys (`update_keys.sort()`, source lines 231-232). -/
def update_keys_sorted : List String := pySortStr (mumps_c_updates.map Prod.fst)

/-- The layout resolution computed by `get_mumps_c_fields` for a target
version integer: the loop of source lines 238-243 applied to a copy of the
base field list. -/
def resolve_for_version (vnum : Nat) : Option (List MField) :=
  apply_updates_loop vnum update_keys_sorted mumps_c_fields

/-- `get_mumps_c_fields` (source lines 212-245): the MUMPS C structure
field list for a given version.

Modelled from the spec: the supported-range guard — the source line 235
reads `if vnum < version_to_int(MIN_SUPPORTED_VERSION)` and its body is
syntactically truncated in the repository; per the spec (§4.3 step 4, §7)
construction "fails with `UnsupportedVersionError` if the parsed version
lies outside the declared supported range", so the guard raises
`unsupported_version` when the version integer is below the declared
minimum or above the declared maximum. -/
def get_mumps_c_fields (version : String) : Except MumpsError (List MField) :=
  let vnum := version_to_int version
  if vnum < version_to_int MIN_SUPPORTED_VERSION ∨
      version_to_int MAX_SUPPORTED_VERSION < vnum then
    Except.error MumpsError.unsupported_version
  else
    match resolve_for_version vnum with
    | none => Except.error MumpsError.layout_resolution
    | some fs => Except.ok fs

/-! ## Spec-side layout resolution

A second description of layout resolution following the wording of the
spec and of claim C1, to be compared with the code-derived
`get_mumps_c_fields`: take the declared delta lists whose declaring
version is `≤ v`, order them by ascending declaring version, and fold them
onto the base field list, where `Replace` substitutes the type of the
named field in place, `Delete` removes the named field, and `InsertAfter`
splices the new fields immediately after the named field.  A delta whose
target is absent at the moment of application fails
(`LayoutResolutionError`). -/

/-- Spec wording of one delta: `Replace(name, type)` substitutes the type
of the named field in place (position retained), `Delete(name)` removes
the named field, `InsertAfter(name, newFields)` splices the new fields
immediately after the named field, preserving internal and subsequent
order.  Fails (`none`) when the named field is absent. -/
def spec_apply_delta (f : List MField) (d : Delta) : Option (List MField) :=
  match d with
  | Delta.replace name t =>
    if (f.map Prod.fst).contains name then
      some (f.map (fun p => if p.1 = name then (name, t) else p))
    else none
  | Delta.delete name =>
    if (f.map Prod.fst).contains name then
      some (f.filter (fun p => p.1 ≠ name))
    else none
  | Delta.new_after_one name fld =>
    match (f.map Prod.fst).findIdx? (· = name) with
    | none => none
    | some i => some (f.take (i + 1) ++ [fld] ++ f.drop (i + 1))
  | Delta.new_after_list name flds =>
    match (f.map Prod.fst).findIdx? (· = name) with
    | none => none
    | some i => some (f.take (i + 1) ++ flds ++ f.drop (i + 1))

/-- Insertion into a list of keyed delta lists, ascending by
`version_to_int` of the key. -/
def insortByVersion (x : String × List Delta) :
    List (String × List Delta) → List (String × List Delta)
  | [] => [x]
  | y :: ys =>
    if version_to_int x.1 < version_to_int y.1 then x :: y :: ys
    else y :: insortByVersion x ys

/-- Sort keyed delta lists by ascending declaring version. -/
def sortByVersion (l : List (String × List Delta)) : List (String × List Delta) :=
  l.foldr insortByVersion []

/-- Spec wording of the applicable delta lists for target `vnum`: the
declared deltas whose declaring version is `≤ vnum`, in ascending version
order regardless of declaration order. -/
def spec_deltas_for (vnum : Nat) : List (String × List Delta) :=
  sortByVersion (mumps_c_updates.filter (fun p => version_to_int p.1 ≤ vnum))

/-- Spec wording of layout resolution: fold the applicable delta lists, in
ascending version order, onto a copy of the base field list. -/
def spec_resolve (vnum : Nat) : Option (List MField) :=
  (spec_deltas_for vnum).foldlM
    (fun f p => p.2.foldlM spec_apply_delta f) mumps_c_fields

/-! ## Version probe parsing (MumpsSolver.__init__, lines 302-311)

The constructor reads the scratch buffer `aux` written by the foreign
library, keeps the bytes in the printable range `ord('.')..ord('9')`
(46..57), and extracts version digits with
`re.findall('^.*(\d)\.(\d+)\.(\d+).*$', s)[-1]`.  The filtered text
contains no newline, so the anchored pattern matches at most once, and the
greedy leading `.*` makes the match start at the rightmost feasible
position; by greediness of `(\d+)` followed by a literal dot, the digit
runs of the match are the maximal runs at that position.  `vmatch` below
computes exactly those groups. -/

/-- Is the byte an ASCII digit? -/
def isDigitByte (b : Nat) : Bool := 48 ≤ b && b ≤ 57

/-- Try to match `(\d)\.(\d+)\.(\d+)` at the head of the byte list, with
maximal digit runs (the only runs the anchored greedy pattern can
report). -/
def tryVersionAt : List Nat → Option (Nat × List Nat × List Nat)
  | d :: 46 :: rest =>
    if isDigitByte d then
      let x := rest.takeWhile isDigitByte
      if x.isEmpty then none
      else match rest.drop x.length with
        | 46 :: rest2 =>
          let y := rest2.takeWhile isDigitByte
          if y.isEmpty then none else some (d, x, y)
        | _ => none
    else none
  | _ => none

/-- The groups reported by
`re.findall('^.*(\d)\.(\d+)\.(\d+).*$', s)[-1]`: the match at the
rightmost feasible position, or `none` when the pattern does not occur
(in which case the source raises on the empty `findall` result). -/
def vmatch : List Nat → Option (Nat × List Nat × List Nat)
  | [] => none
  | c :: rest => ((vmatch rest).orElse (fun _ => tryVersionAt (c :: rest)))

/-- `'.'.join(vnums)` : rebuild the dotted version string from the three
matched groups of digit bytes. -/
def joinVersion (d : Nat) (x y : List Nat) : String :=
  String.mk (Char.ofNat d :: '.' ::
    (x.map Char.ofNat ++ '.' :: y.map Char.ofNat))

/-- The byte-range filter applied to the scratch buffer (source lines
302-304): keep bytes between `ord('.') = 46` and `ord('9') = 57`. -/
def probe_filter (aux : List Nat) : List Nat :=
  aux.filter (fun b => 46 ≤ b && b ≤ 57)

/-- The version-determination phase of `MumpsSolver.__init__` (source
lines 302-311): filter the probe scratch buffer, extract the version
groups, and resolve the field layout for the detected version.

Modelled from the spec: when no version-like substring is found the
source raises at `findall(...)[-1]` (an `IndexError`); the spec (§4.3
step 4, §7) prescribes `UnsupportedVersionError` for a malformed probe
response, and the error class itself does not appear in the truncated
source, so that failure is reported as `unsupported_version`. -/
def init_layout (aux : List Nat) : Except MumpsError (List MField) :=
  match vmatch (probe_filter aux) with
  | none => Except.error MumpsError.unsupported_version
  | some (d, x, y) => get_mumps_c_fields (joinVersion d x y)

/-! ## The solver session (class MumpsSolver, lines 248-493) -/

/-- A numpy array: object identity plus contents.  `id` stands for the
address that `arr.ctypes.data_as(...)` yields; two arrays alias exactly
when their `id`s coincide. -/
structure NArr where
  id : Nat
  val : List Int
deriving DecidableEq, Repr

/-- The fields of the MUMPS C structure that the wrapper reads or writes.
Pointer-valued fields hold the `NArr.id` of the array they point at
(`0` = never set).  `icntl` is the control-option array, `infog0` the
first element of the global-info status array.  `hasNNZ` records whether
the resolved layout of the detected version has an `nnz` field
(`hasattr(self.struct, 'nnz')`, true from version 5.1.0 on). -/
structure CStruct where
  sym : Int
  par : Int
  job : Int
  n : Nat
  nz : Nat
  hasNNZ : Bool
  nnz : Nat
  irn : Nat
  jcn : Nat
  a : Nat
  rhs : Nat
  redrhs : Nat
  lredrhs : Nat
  size_schur : Nat
  listvar_schur : Nat
  schur : Nat
  schur_lld : Nat
  nprow : Nat
  npcol : Nat
  mblock : Nat
  nblock : Nat
  icntl : List Int
  infog0 : Int
deriving DecidableEq, Repr

/-- The behaviour of the foreign routine `dmumps_c`/`zmumps_c`: it may
rewrite the structure arbitrarily. -/
abbrev MLib := CStruct → CStruct

/-- The Python-side state of a `MumpsSolver` object.  `released` is true
once `self.struct` has been set to `None` by `__del__`; `_data` is the
role-keyed dictionary of retained array references; `calls` is the trace
of structures passed to the foreign routine, one entry per foreign call;
`next_id` feeds fresh identities to arrays the wrapper itself creates. -/
structure MumpsSolver where
  struct : CStruct
  released : Bool
  rank : Nat
  _data : List (String × NArr)
  _schur_rhs : Option NArr
  calls : List CStruct
  next_id : Nat
deriving DecidableEq, Repr

/-- Python `dict` update for one key: replace in place when the key is
present (insertion order preserved), append otherwise. -/
def dictUpd (d : List (String × NArr)) (k : String) (v : NArr) :
    List (String × NArr) :=
  if (d.lookup k).isSome then
    d.map (fun p => if p.1 = k then (k, v) else p)
  else d ++ [(k, v)]

namespace MumpsSolver

/-- One foreign call `self._mumps_c(ctypes.byref(self.struct))`: the
structure passed is recorded in the trace and the library rewrites it. -/
def mumps_c (lib : MLib) (s : MumpsSolver) : MumpsSolver :=
  { s with struct := lib s.struct, calls := s.calls ++ [s.struct] }

/-- `_mumps_call` (source lines 476-492): set the job, call the foreign
routine, then raise `RuntimeError` (spec: `SolverError`) carrying the raw
status whenever the first global-info entry is negative. -/
def mumps_call (lib : MLib) (job : Int) (s : MumpsSolver) :
    Except MumpsError MumpsSolver :=
  let s1 := mumps_c lib { s with struct := { s.struct with job := job } }
  if s1.struct.infog0 < 0 then
    Except.error (MumpsError.runtime_error s1.struct.infog0)
  else Except.ok s1

/-- `__call__` (source lines 407-409). -/
def call (lib : MLib) (job : Int) (s : MumpsSolver) :
    Except MumpsError MumpsSolver :=
  mumps_call lib job s

/-- `__del__` (source lines 346-351): invoke the release job `-2` only
when `self.struct` is not `None`, then set `self.struct = None`
(modelled by `released := true`). -/
def finalize (lib : MLib) (s : MumpsSolver) : Except MumpsError MumpsSolver :=
  if s.released then Except.ok { s with released := true }
  else (mumps_call lib (-2) s).map (fun s1 => { s1 with released := true })

/-- `set_rcd_centralized` (source lines 374-400): retain the three arrays
in `_data` under the roles `ir`, `ic`, `data`, set the dimension and
nonzero counts, and point `irn`/`jcn`/`a` at the retained arrays.  `none`
models the failing `assert` when the three arrays differ in length. -/
def set_rcd_centralized (s : MumpsSolver) (ir ic data : NArr) (n : Nat) :
    Option MumpsSolver :=
  if ir.val.length = ic.val.length ∧ ic.val.length = data.val.length then
    some { s with
      _data := dictUpd (dictUpd (dictUpd s._data "ir" ir) "ic" ic) "data" data,
      struct := { s.struct with
        n := n,
        nz := ir.val.length,
        nnz := if s.struct.hasNNZ then ir.val.length else s.struct.nnz,
        irn := ir.id,
        jcn := ic.id,
        a := data.id } }
  else none

/-- A sparse matrix in COO format: parallel row / column / value arrays
(0-based indices, as numpy holds them) and the shape. -/
structure COO where
  row : NArr
  col : NArr
  data : NArr
  shape : Nat × Nat
deriving DecidableEq, Repr

/-- Boolean-mask selection `arr[idxs]` on a parallel array. -/
def maskFilter : List Bool → List Int → List Int
  | b :: bs, x :: xs => if b then x :: maskFilter bs xs else maskFilter bs xs
  | _, _ => []

/-- `set_mtx_centralized` (source lines 353-372): shift indices to
1-based; on a symmetric solver (`sym > 0`) keep only the entries whose
column index is `≥` the row index (`nm.where(cc >= rr)`), then submit via
`set_rcd_centralized`.  `none` models the failing square-shape `assert`.
The arrays built by `mtx.row + 1`, `mtx.col + 1` and fancy indexing are
fresh numpy arrays; they draw identities from `next_id`. -/
def set_mtx_centralized (s : MumpsSolver) (mtx : COO) : Option MumpsSolver :=
  if mtx.shape.1 = mtx.shape.2 then
    let rr := mtx.row.val.map (· + 1)
    let cc := mtx.col.val.map (· + 1)
    if s.struct.sym > 0 then
      let mask := (rr.zip cc).map (fun p => decide (p.1 ≤ p.2))
      set_rcd_centralized { s with next_id := s.next_id + 3 }
        ⟨s.next_id, maskFilter mask rr⟩
        ⟨s.next_id + 1, maskFilter mask cc⟩
        ⟨s.next_id + 2, maskFilter mask mtx.data.val⟩
        mtx.shape.1
    else
      set_rcd_centralized { s with next_id := s.next_id + 2 }
        ⟨s.next_id, rr⟩ ⟨s.next_id + 1, cc⟩ mtx.data mtx.shape.1
  else none

/-- `set_rhs` (source lines 402-405): retain the array under the role
`rhs` and point the `rhs` field at it. -/
def set_rhs (s : MumpsSolver) (rhs : NArr) : MumpsSolver :=
  { s with
    _data := dictUpd s._data "rhs" rhs,
    struct := { s.struct with rhs := rhs.id } }

/-- `numpy.reshape` of a flat buffer to `r × c`; `none` models the raised
error on a size mismatch. -/
def reshape (arr : NArr) (r c : Nat) : Option (NArr × Nat × Nat) :=
  if arr.val.length = r * c then some (arr, r, c) else none

/-- `get_schur` (source lines 411-454): allocate the dense Schur buffer
(`schur_size²`) and the condensed right-hand-side buffer (`schur_size`),
configure the Schur fields and the 1×1 block-cyclic layout with block
size 100, select the centralized column-stored Schur complement
(`icntl[18] = 3`), invoke job 4 directly, select the
reduction/condensation phase (`icntl[25] = 1`), invoke job 3 directly,
and return the dense buffer reshaped to `schur_size × schur_size`
together with the condensed right-hand side.  Both foreign invocations
bypass `_mumps_call` and its status check. -/
def get_schur (lib : MLib) (s : MumpsSolver) (schur_list : NArr) :
    Option (MumpsSolver × (NArr × Nat × Nat) × NArr) :=
  let schur_size := schur_list.val.length
  let schur_arr : NArr := ⟨s.next_id, List.replicate (schur_size ^ 2) 0⟩
  let schur_rhs : NArr := ⟨s.next_id + 1, List.replicate schur_size 0⟩
  let s0 := { s with next_id := s.next_id + 2, _schur_rhs := some schur_rhs }
  let st1 := { s0.struct with
    size_schur := schur_size,
    listvar_schur := schur_list.id,
    schur := schur_arr.id,
    lredrhs := schur_size,
    redrhs := schur_rhs.id,
    schur_lld := schur_size,
    nprow := 1,
    npcol := 1,
    mblock := 100,
    nblock := 100 }
  let st1 := { st1 with icntl := st1.icntl.set 18 3, job := 4 }
  let s1 := mumps_c lib { s0 with struct := st1 }
  let st2 := { s1.struct with icntl := s1.struct.icntl.set 25 1, job := 3 }
  let s2 := mumps_c lib { s1 with struct := st2 }
  (reshape schur_arr schur_size schur_size).map (fun m => (s2, m, schur_rhs))

/-- `expand_schur` (source lines 456-474): write the partial solution into
the condensed right-hand-side buffer in place, select the expansion phase
(`icntl[25] = 2`), invoke job 3 directly, and return the retained `rhs`
array.  `none` models the `AttributeError` when `get_schur` has not run,
the shape error when `x2` does not fit the buffer, and the `KeyError`
when no right-hand side was ever submitted. -/
def expand_schur (lib : MLib) (s : MumpsSolver) (x2 : List Int) :
    Option (MumpsSolver × NArr) :=
  match s._schur_rhs with
  | none => none
  | some srhs =>
    if x2.length = srhs.val.length then
      let s0 := { s with _schur_rhs := some { srhs with val := x2 } }
      let st := { s0.struct with icntl := s0.struct.icntl.set 25 2, job := 3 }
      let s1 := mumps_c lib { s0 with struct := st }
      (s1._data.lookup "rhs").map (fun r => (s1, r))
    else none

end MumpsSolver

/-! ## Layout resolution: code vs spec -/

/-- The update loop only consults the target version through the
comparisons `version_to_int k > vnum`. -/
theorem apply_updates_loop_congr (n m : Nat) (keys : List String)
    (h : ∀ k ∈ keys, (version_to_int k > n ↔ version_to_int k > m)) :
    ∀ f, apply_updates_loop n keys f = apply_updates_loop m keys f := by
  induction keys with
  | nil => intro f; rfl
  | cons k rest ih =>
    intro f
    have hk := h k (List.mem_cons_self _ _)
    simp only [apply_updates_loop]
    by_cases hc : version_to_int k > n
    · rw [if_pos hc, if_pos (hk.mp hc)]
    · rw [if_neg hc, if_neg (fun hm => hc (hk.mpr hm))]
      cases update_fields f ((mumps_c_updates.lookup k).getD []) with
      | none => rfl
      | some f2 => exact ih (fun k2 hk2 => h k2 (List.mem_cons_of_mem _ hk2)) f2

/-- The spec-side resolution only consults the target version through the
comparisons `version_to_int key ≤ vnum`. -/
theorem spec_resolve_congr (n m : Nat)
    (h : ∀ p ∈ mumps_c_updates,
      decide (version_to_int p.1 ≤ n) = decide (version_to_int p.1 ≤ m)) :
    spec_resolve n = spec_resolve m := by
  unfold spec_resolve spec_deltas_for
  rw [List.filter_congr h]

theorem vti500 : version_to_int "5.0.0" = 5000000 := rfl

theorem vti510 : version_to_int "5.1.0" = 5001000 := rfl

theorem vti520 : version_to_int "5.2.0" = 5002000 := rfl

theorem vti530 : version_to_int "5.3.0" = 5003000 := rfl

theorem vti570 : version_to_int "5.7.0" = 5007000 := rfl

theorem update_keys_sorted_eq :
    update_keys_sorted = ["5.0.0", "5.1.0", "5.2.0", "5.3.0", "5.7.0"] := rfl

theorem update_names_eq :
    mumps_c_updates.map Prod.fst = ["5.0.0", "5.1.0", "5.2.0", "5.3.0", "5.7.0"] := rfl

/-- Reduce the loop comparisons over the five declared keys to plain
arithmetic facts. -/
theorem keys_cond (n m : Nat)
    (h0 : 5000000 > n ↔ 5000000 > m) (h1 : 5001000 > n ↔ 5001000 > m)
    (h2 : 5002000 > n ↔ 5002000 > m) (h3 : 5003000 > n ↔ 5003000 > m)
    (h4 : 5007000 > n ↔ 5007000 > m) :
    ∀ k ∈ update_keys_sorted, (version_to_int k > n ↔ version_to_int k > m) := by
  intro k hk
  rw [update_keys_sorted_eq] at hk
  simp only [List.mem_cons, List.not_mem_nil, or_false] at hk
  rcases hk with rfl | rfl | rfl | rfl | rfl
  · rw [vti500]; exact h0
  · rw [vti510]; exact h1
  · rw [vti520]; exact h2
  · rw [vti530]; exact h3
  · rw [vti570]; exact h4

/-- Reduce the filter comparisons over the five declared keys to plain
arithmetic facts. -/
theorem filt_cond (n m : Nat)
    (h0 : 5000000 ≤ n ↔ 5000000 ≤ m) (h1 : 5001000 ≤ n ↔ 5001000 ≤ m)
    (h2 : 5002000 ≤ n ↔ 5002000 ≤ m) (h3 : 5003000 ≤ n ↔ 5003000 ≤ m)
    (h4 : 5007000 ≤ n ↔ 5007000 ≤ m) :
    ∀ p ∈ mumps_c_updates,
      decide (version_to_int p.1 ≤ n) = decide (version_to_int p.1 ≤ m) := by
  intro p hp
  have hp1 : p.1 ∈ mumps_c_updates.map Prod.fst := List.mem_map_of_mem _ hp
  rw [update_names_eq] at hp1
  simp only [List.mem_cons, List.not_mem_nil, or_false] at hp1
  rcases hp1 with hq | hq | hq | hq | hq <;> rw [hq]
  · rw [vti500]; exact decide_eq_decide.mpr h0
  · rw [vti510]; exact decide_eq_decide.mpr h1
  · rw [vti520]; exact decide_eq_decide.mpr h2
  · rw [vti530]; exact decide_eq_decide.mpr h3
  · rw [vti570]; exact decide_eq_decide.mpr h4

/-- For every target version integer, the loop of `get_mumps_c_fields`
succeeds, agrees with the spec-side resolution, and yields a field list
with pairwise distinct names.  Proved by reducing each of the six
version intervals to a concrete representative and evaluating. -/
theorem resolve_agree (n : Nat) :
    ∃ fs, resolve_for_version n = some fs ∧ spec_resolve n = some fs ∧
      (fs.map Prod.fst).Nodup := by
  have main : ∀ m : Nat,
      (∀ k ∈ update_keys_sorted, (version_to_int k > n ↔ version_to_int k > m)) →
      (∀ p ∈ mumps_c_updates,
        decide (version_to_int p.1 ≤ n) = decide (version_to_int p.1 ≤ m)) →
      spec_resolve m = resolve_for_version m →
      (resolve_for_version m).isSome = true →
      (((resolve_for_version m).getD []).map Prod.fst).Nodup →
      ∃ fs, resolve_for_version n = some fs ∧ spec_resolve n = some fs ∧
        (fs.map Prod.fst).Nodup := by
    intro m hkc hfc hagree hsome hnodup
    obtain ⟨fs, hfs⟩ := Option.isSome_iff_exists.mp hsome
    refine ⟨fs, ?_, ?_, ?_⟩
    · rw [resolve_for_version, apply_updates_loop_congr n m _ hkc,
        ← resolve_for_version, hfs]
    · rw [spec_resolve_congr n m hfc, hagree, hfs]
    · rw [hfs] at hnodup; simpa using hnodup
  rcases Nat.lt_or_ge n 5000000 with h0 | h0
  · exact main 0
      (keys_cond n 0 (by omega) (by omega) (by omega) (by omega) (by omega))
      (filt_cond n 0 (by omega) (by omega) (by omega) (by omega) (by omega))
      (by decide) (by decide) (by decide)
  rcases Nat.lt_or_ge n 5001000 with h1 | h1
  · exact main 5000000
      (keys_cond n 5000000 (by omega) (by omega) (by omega) (by omega) (by omega))
      (filt_cond n 5000000 (by omega) (by omega) (by omega) (by omega) (by omega))
      (by decide) (by decide) (by decide)
  rcases Nat.lt_or_ge n 5002000 with h2 | h2
  · exact main 5001000
      (keys_cond n 5001000 (by omega) (by omega) (by omega) (by omega) (by omega))
      (filt_cond n 5001000 (by omega) (by omega) (by omega) (by omega) (by omega))
      (by decide) (by decide) (by decide)
  rcases Nat.lt_or_ge n 5003000 with h3 | h3
  · exact main 5002000
      (keys_cond n 5002000 (by omega) (by omega) (by omega) (by omega) (by omega))
      (filt_cond n 5002000 (by omega) (by omega) (by omega) (by omega) (by omega))
      (by decide) (by decide) (by decide)
  rcases Nat.lt_or_ge n 5007000 with h4 | h4
  · exact main 5003000
      (keys_cond n 5003000 (by omega) (by omega) (by omega) (by omega) (by omega))
      (filt_cond n 5003000 (by omega) (by omega) (by omega) (by omega) (by omega))
      (by decide) (by decide) (by decide)
  · exact main 5007000
      (keys_cond n 5007000 (by omega) (by omega) (by omega) (by omega) (by omega))
      (filt_cond n 5007000 (by omega) (by omega) (by omega) (by omega) (by omega))
      (by decide) (by decide) (by decide)

/-- C1: for every target version in the supported range, the layout
resolution function `get_mumps_c_fields` returns exactly the result of
folding, onto a copy of the base field list, the declared delta lists
whose declaring version is ≤ the target, in ascending version order
regardless of declaration order, with `Replace` substituting the type in
place, `Delete` removing the field, and `InsertAfter` splicing the new
fields immediately after the named field (`spec_resolve`). -/
theorem C1_layout_matches_spec_fold (v : String)
    (hlo : version_to_int MIN_SUPPORTED_VERSION ≤ version_to_int v)
    (hhi : version_to_int v ≤ version_to_int MAX_SUPPORTED_VERSION) :
    ∃ fs, get_mumps_c_fields v = Except.ok fs ∧
      spec_resolve (version_to_int v) = some fs := by
  obtain ⟨fs, hA, hB, _⟩ := resolve_agree (version_to_int v)
  refine ⟨fs, ?_, hB⟩
  rw [get_mumps_c_fields]
  rw [if_neg (by omega), hA]

theorem C1_witness :
    version_to_int MIN_SUPPORTED_VERSION ≤ version_to_int "5.2.1" ∧
    version_to_int "5.2.1" ≤ version_to_int MAX_SUPPORTED_VERSION ∧
    ∃ fs, get_mumps_c_fields "5.2.1" = Except.ok fs ∧
      spec_resolve (version_to_int "5.2.1") = some fs :=
  ⟨by decide, by decide,
    C1_layout_matches_spec_fold "5.2.1" (by decide) (by decide)⟩

/-- C2: on a `major.minor.patch` version string with numeric components,
`version_to_int` computes `major * 10^6 + minor * 10^3 + patch`; in
particular `5.2.1 > 4.10.0` and `5.10.0 > 5.2.9`. -/
theorem C2_version_to_int_weighting (v : String) (ma mi pa : List Char)
    (a b c : Nat) (hsplit : splitOnChar '.' v.data = [ma, mi, pa])
    (ha : strToNat ma = some a) (hb : strToNat mi = some b)
    (hc : strToNat pa = some c) :
    version_to_int v = a * 10 ^ 6 + b * 10 ^ 3 + c ∧
    version_to_int "5.2.1" > version_to_int "4.10.0" ∧
    version_to_int "5.10.0" > version_to_int "5.2.9" := by
  refine ⟨?_, by decide, by decide⟩
  rw [version_to_int, hsplit]
  simp only [List.reverse_cons, List.reverse_nil, List.nil_append,
    List.cons_append, List.enum, List.enumFrom, List.map_cons, List.map_nil,
    List.sum_cons, List.sum_nil, ha, hb, hc, Option.getD_some]
  ring

theorem C2_witness :
    splitOnChar '.' "5.2.1".data = [['5'], ['2'], ['1']] ∧
    strToNat ['5'] = some 5 ∧ strToNat ['2'] = some 2 ∧
    strToNat ['1'] = some 1 ∧
    (version_to_int "5.2.1" = 5 * 10 ^ 6 + 2 * 10 ^ 3 + 1 ∧
      version_to_int "5.2.1" > version_to_int "4.10.0" ∧
      version_to_int "5.10.0" > version_to_int "5.2.9") :=
  ⟨by decide, by decide, by decide, by decide,
    C2_version_to_int_weighting "5.2.1" ['5'] ['2'] ['1'] 5 2 1
      (by decide) (by decide) (by decide) (by decide)⟩

/-- `get_mumps_c_fields` reports an unsupported version exactly when the
version integer lies outside the declared supported range. -/
theorem get_fields_unsupported_iff (v : String) :
    get_mumps_c_fields v = Except.error MumpsError.unsupported_version ↔
      (version_to_int v < version_to_int MIN_SUPPORTED_VERSION ∨
        version_to_int MAX_SUPPORTED_VERSION < version_to_int v) := by
  rw [get_mumps_c_fields]
  by_cases hc : version_to_int v < version_to_int MIN_SUPPORTED_VERSION ∨
      version_to_int MAX_SUPPORTED_VERSION < version_to_int v
  · rw [if_pos hc]
    simp [hc]
  · rw [if_neg hc]
    obtain ⟨fs, hA, _, _⟩ := resolve_agree (version_to_int v)
    rw [hA]
    simp [hc]

/-- C3: the version-determination phase of session construction fails
with `unsupported_version` exactly when no version-like substring is
found in the filtered probe scratch buffer, or the parsed version lies
outside the declared supported range (minimum 4.10.0, maximum
5.7.999). -/
theorem C3_unsupported_version_conditions (aux : List Nat) :
    init_layout aux = Except.error MumpsError.unsupported_version ↔
      (vmatch (probe_filter aux) = none ∨
        ∃ d x y, vmatch (probe_filter aux) = some (d, x, y) ∧
          (version_to_int (joinVersion d x y) <
              version_to_int MIN_SUPPORTED_VERSION ∨
            version_to_int MAX_SUPPORTED_VERSION <
              version_to_int (joinVersion d x y))) := by
  rw [init_layout]
  cases hv : vmatch (probe_filter aux) with
  | none => simp
  | some g =>
    obtain ⟨d, x, y⟩ := g
    simp only [reduceCtorEq, false_or, Option.some.injEq]
    rw [get_fields_unsupported_iff]
    constructor
    · intro h
      exact ⟨d, x, y, rfl, h⟩
    · rintro ⟨d2, x2, y2, heq, h⟩
      obtain ⟨rfl, rfl, rfl⟩ : d = d2 ∧ x = x2 ∧ y = y2 := by
        injection heq with h1 h2
        injection h2 with h2 h3
        exact ⟨h1, h2, h3⟩
      exact h

/-- C6: for every supported version integer in the declared range, the
layout resolution loop succeeds (every delta target is present at the
moment its delta is applied) and the resulting field names are pairwise
distinct. -/
theorem C6_resolution_succeeds_unique_names (n : Nat)
    (_hlo : version_to_int MIN_SUPPORTED_VERSION ≤ n)
    (_hhi : n ≤ version_to_int MAX_SUPPORTED_VERSION) :
    ∃ fs, resolve_for_version n = some fs ∧ (fs.map Prod.fst).Nodup := by
  obtain ⟨fs, hA, _, hC⟩ := resolve_agree n
  exact ⟨fs, hA, hC⟩

theorem C6_witness :
    version_to_int MIN_SUPPORTED_VERSION ≤ 5002001 ∧
    5002001 ≤ version_to_int MAX_SUPPORTED_VERSION ∧
    ∃ fs, resolve_for_version 5002001 = some fs ∧ (fs.map Prod.fst).Nodup :=
  ⟨by decide, by decide,
    C6_resolution_succeeds_unique_names 5002001 (by decide) (by decide)⟩



/-! ## Dictionary lemmas -/

theorem lookup_cons_self (k : String) (v : NArr) (rest : List (String × NArr)) :
    List.lookup k ((k, v) :: rest) = some v := by
  simp [List.lookup]

theorem lookup_cons_ne (k pk : String) (pv : NArr) (rest : List (String × NArr))
    (h : k ≠ pk) : List.lookup k ((pk, pv) :: rest) = List.lookup k rest := by
  simp [List.lookup, beq_eq_false_iff_ne.mpr h]

theorem lookup_map_self (d : List (String × NArr)) (k : String) (v : NArr)
    (h : (List.lookup k d).isSome = true) :
    List.lookup k (d.map (fun p => if p.1 = k then (k, v) else p)) = some v := by
  induction d with
  | nil => simp [List.lookup] at h
  | cons p rest ih =>
    obtain ⟨pk, pv⟩ := p
    rw [List.map_cons]
    by_cases hk : pk = k
    · subst hk
      have hhead : (if (pk, pv).1 = pk then (pk, v) else (pk, pv)) = (pk, v) := by
        simp
      rw [hhead, lookup_cons_self]
    · have hhead : (if (pk, pv).1 = k then (k, v) else (pk, pv)) = (pk, pv) := by
        simp [hk]
      have hne : k ≠ pk := fun he => hk he.symm
      rw [hhead, lookup_cons_ne _ _ _ _ hne]
      rw [lookup_cons_ne _ _ _ _ hne] at h
      exact ih h

theorem lookup_append_self (d : List (String × NArr)) (k : String) (v : NArr)
    (h : List.lookup k d = none) :
    List.lookup k (d ++ [(k, v)]) = some v := by
  induction d with
  | nil => simp [List.lookup]
  | cons p rest ih =>
    obtain ⟨pk, pv⟩ := p
    by_cases hk : k = pk
    · subst hk
      rw [lookup_cons_self] at h
      exact absurd h (by simp)
    · rw [List.cons_append, lookup_cons_ne _ _ _ _ hk]
      rw [lookup_cons_ne _ _ _ _ hk] at h
      exact ih h

theorem lookup_map_ne (d : List (String × NArr)) (k k2 : String) (v : NArr)
    (h : k2 ≠ k) :
    List.lookup k2 (d.map (fun p => if p.1 = k then (k, v) else p)) =
      List.lookup k2 d := by
  induction d with
  | nil => simp
  | cons p rest ih =>
    obtain ⟨pk, pv⟩ := p
    rw [List.map_cons]
    by_cases hk : pk = k
    · subst hk
      have hhead : (if (pk, pv).1 = pk then (pk, v) else (pk, pv)) = (pk, v) := by
        simp
      rw [hhead, lookup_cons_ne _ _ _ _ h, lookup_cons_ne _ _ _ _ h]
      exact ih
    · have hhead : (if (pk, pv).1 = k then (k, v) else (pk, pv)) = (pk, pv) := by
        simp [hk]
      rw [hhead]
      by_cases hk2 : k2 = pk
      · subst hk2
        rw [lookup_cons_self, lookup_cons_self]
      · rw [lookup_cons_ne _ _ _ _ hk2, lookup_cons_ne _ _ _ _ hk2]
        exact ih

theorem lookup_append_ne (d : List (String × NArr)) (k k2 : String) (v : NArr)
    (h : k2 ≠ k) :
    List.lookup k2 (d ++ [(k, v)]) = List.lookup k2 d := by
  induction d with
  | nil => simp [List.lookup, beq_eq_false_iff_ne.mpr h]
  | cons p rest ih =>
    obtain ⟨pk, pv⟩ := p
    by_cases hk2 : k2 = pk
    · subst hk2
      rw [List.cons_append, lookup_cons_self, lookup_cons_self]
    · rw [List.cons_append, lookup_cons_ne _ _ _ _ hk2,
        lookup_cons_ne _ _ _ _ hk2]
      exact ih

/-- Looking up the updated key yields the new array. -/
theorem lookup_dictUpd_self (d : List (String × NArr)) (k : String) (v : NArr) :
    List.lookup k (dictUpd d k v) = some v := by
  rw [dictUpd]
  by_cases h : (List.lookup k d).isSome
  · rw [if_pos h]
    exact lookup_map_self d k v h
  · rw [if_neg h]
    refine lookup_append_self d k v ?_
    cases hd : List.lookup k d with
    | none => rfl
    | some w => rw [hd] at h; simp at h

/-- Updating one key leaves the other keys untouched. -/
theorem lookup_dictUpd_ne (d : List (String × NArr)) (k k2 : String) (v : NArr)
    (h : k2 ≠ k) : List.lookup k2 (dictUpd d k v) = List.lookup k2 d := by
  rw [dictUpd]
  by_cases hs : (List.lookup k d).isSome
  · rw [if_pos hs]
    exact lookup_map_ne d k k2 v h
  · rw [if_neg hs]
    exact lookup_append_ne d k k2 v h

/-! ## Submission operations: retention, aliasing, rank -/

/-- C10: each submission operation retains the caller-supplied arrays in
the role-keyed `_data` dictionary and makes the foreign pointer fields
(`irn`, `jcn`, `a`, `rhs`) alias exactly the retained arrays; a repeated
submission replaces the retained reference for the same role (the
`lookup` of the role returns the newly supplied array whatever was there
before), and each operation leaves the other roles' retained references
and pointer fields unchanged. -/
theorem C10_submission_retains_references (s : MumpsSolver)
    (ir ic data rhs : NArr) (n : Nat)
    (h1 : ir.val.length = ic.val.length)
    (h2 : ic.val.length = data.val.length) :
    (∃ s1, MumpsSolver.set_rcd_centralized s ir ic data n = some s1 ∧
      List.lookup "ir" s1._data = some ir ∧
      List.lookup "ic" s1._data = some ic ∧
      List.lookup "data" s1._data = some data ∧
      s1.struct.irn = ir.id ∧ s1.struct.jcn = ic.id ∧
      s1.struct.a = data.id ∧
      List.lookup "rhs" s1._data = List.lookup "rhs" s._data ∧
      s1.struct.rhs = s.struct.rhs) ∧
    (List.lookup "rhs" (MumpsSolver.set_rhs s rhs)._data = some rhs ∧
      (MumpsSolver.set_rhs s rhs).struct.rhs = rhs.id ∧
      List.lookup "ir" (MumpsSolver.set_rhs s rhs)._data =
        List.lookup "ir" s._data ∧
      List.lookup "ic" (MumpsSolver.set_rhs s rhs)._data =
        List.lookup "ic" s._data ∧
      List.lookup "data" (MumpsSolver.set_rhs s rhs)._data =
        List.lookup "data" s._data ∧
      (MumpsSolver.set_rhs s rhs).struct.irn = s.struct.irn ∧
      (MumpsSolver.set_rhs s rhs).struct.jcn = s.struct.jcn ∧
      (MumpsSolver.set_rhs s rhs).struct.a = s.struct.a) := by
  constructor
  · rw [MumpsSolver.set_rcd_centralized, if_pos ⟨h1, h2⟩]
    refine ⟨_, rfl, ?_, ?_, ?_, rfl, rfl, rfl, ?_, rfl⟩
    · rw [lookup_dictUpd_ne _ _ _ _ (by decide),
        lookup_dictUpd_ne _ _ _ _ (by decide), lookup_dictUpd_self]
    · rw [lookup_dictUpd_ne _ _ _ _ (by decide), lookup_dictUpd_self]
    · rw [lookup_dictUpd_self]
    · rw [lookup_dictUpd_ne _ _ _ _ (by decide),
        lookup_dictUpd_ne _ _ _ _ (by decide),
        lookup_dictUpd_ne _ _ _ _ (by decide)]
  · refine ⟨?_, rfl, ?_, ?_, ?_, rfl, rfl, rfl⟩ <;>
      rw [MumpsSolver.set_rhs]
    · exact lookup_dictUpd_self _ _ _
    · exact lookup_dictUpd_ne _ _ _ _ (by decide)
    · exact lookup_dictUpd_ne _ _ _ _ (by decide)
    · exact lookup_dictUpd_ne _ _ _ _ (by decide)

/-- The state of a `MumpsSolver` right after `__init__` (source lines
317-332, after the version probe): `par = 1`, `sym = 2` when symmetric,
`n = 0`, empty `_data`, verbosity switched off and the memory-relaxation
percentage stored at `icntl[13]`.  The call trace is observed from this
point on (the construction-time foreign calls are not recorded). -/
def init_struct (is_sym : Bool) (mem_relax : Int) : CStruct :=
  { sym := if is_sym then 2 else 0, par := 1, job := -1, n := 0,
    nz := 0, hasNNZ := true, nnz := 0, irn := 0, jcn := 0, a := 0, rhs := 0,
    redrhs := 0, lredrhs := 0, size_schur := 0, listvar_schur := 0,
    schur := 0, schur_lld := 0, nprow := 0, npcol := 0, mblock := 0,
    nblock := 0,
    icntl := (((((List.replicate 60 0).set 0 (-1)).set 1 (-1)).set 2
      (-1)).set 3 0).set 13 mem_relax,
    infog0 := 0 }

/-- The solver object right after construction, built around
`init_struct`. -/
def init_solver (is_sym : Bool) (rank : Nat) (mem_relax : Int) : MumpsSolver :=
  { struct := init_struct is_sym mem_relax,
    released := false, rank := rank, _data := [], _schur_rhs := none,
    calls := [], next_id := 1 }

def wIr : NArr := ⟨11, [1, 2]⟩

def wIc : NArr := ⟨12, [3, 4]⟩

def wData : NArr := ⟨13, [5, 6]⟩

def wRhs : NArr := ⟨14, [7]⟩

def wS : MumpsSolver := init_solver false 0 20

theorem C10_witness :
    wIr.val.length = wIc.val.length ∧ wIc.val.length = wData.val.length ∧
    (∃ s1, MumpsSolver.set_rcd_centralized wS wIr wIc wData 2 = some s1 ∧
      List.lookup "ir" s1._data = some wIr ∧
      List.lookup "rhs" (MumpsSolver.set_rhs wS wRhs)._data = some wRhs) := by
  refine ⟨by decide, by decide, ?_⟩
  obtain ⟨⟨s1, hs, hir, -⟩, hrhs, -⟩ :=
    C10_submission_retains_references wS wIr wIc wData wRhs 2
      (by decide) (by decide)
  exact ⟨s1, hs, hir, hrhs⟩

/-- `set_rhs` acts the same whatever the rank field holds. -/
theorem set_rhs_rank_comm (s : MumpsSolver) (r : Nat) (rhs : NArr) :
    MumpsSolver.set_rhs { s with rank := r } rhs =
      { MumpsSolver.set_rhs s rhs with rank := r } := rfl

/-- `set_rcd_centralized` acts the same whatever the rank field holds. -/
theorem set_rcd_rank_comm (s : MumpsSolver) (r : Nat) (ir ic data : NArr)
    (n : Nat) :
    MumpsSolver.set_rcd_centralized { s with rank := r } ir ic data n =
      Option.map (fun t => { t with rank := r })
        (MumpsSolver.set_rcd_centralized s ir ic data n) := by
  rw [MumpsSolver.set_rcd_centralized, MumpsSolver.set_rcd_centralized]
  by_cases h : ir.val.length = ic.val.length ∧ ic.val.length = data.val.length
  · rw [if_pos h, if_pos h]; rfl
  · rw [if_neg h, if_neg h]; rfl

/-- `set_mtx_centralized` acts the same whatever the rank field holds. -/
theorem set_mtx_rank_comm (s : MumpsSolver) (r : Nat) (mtx : MumpsSolver.COO) :
    MumpsSolver.set_mtx_centralized { s with rank := r } mtx =
      Option.map (fun t => { t with rank := r })
        (MumpsSolver.set_mtx_centralized s mtx) := by
  rw [MumpsSolver.set_mtx_centralized, MumpsSolver.set_mtx_centralized]
  dsimp only
  by_cases hsq : mtx.shape.1 = mtx.shape.2
  · rw [if_pos hsq, if_pos hsq]
    by_cases hsym : s.struct.sym > 0
    · rw [if_pos hsym, if_pos hsym]
      exact set_rcd_rank_comm { s with next_id := s.next_id + 3 } r _ _ _ _
    · rw [if_neg hsym, if_neg hsym]
      exact set_rcd_rank_comm { s with next_id := s.next_id + 2 } r _ _ _ _
  · rw [if_neg hsq, if_neg hsq]; rfl

/-- C9 counterexample: invoking `set_rhs` on a solver whose rank is 1
(a non-root rank) changes the local SolverState, so the submission
operations are not no-ops on non-root ranks. -/
theorem C9_counterexample :
    (MumpsSolver.set_rhs (init_solver true 1 20) ⟨7, [1, 2, 3]⟩).struct ≠
      (init_solver true 1 20).struct := by decide

/-- C9 amended: the submission operations never consult the rank — they
mutate the local SolverState identically on every rank (root or not);
rank-conditional submission is left to the caller. -/
theorem C9_amended_rank_independent (s : MumpsSolver) (r : Nat)
    (ir ic data rhs : NArr) (n : Nat) (mtx : MumpsSolver.COO) :
    MumpsSolver.set_rhs { s with rank := r } rhs =
      { MumpsSolver.set_rhs s rhs with rank := r } ∧
    (MumpsSolver.set_rhs s rhs).struct.rhs = rhs.id ∧
    MumpsSolver.set_rcd_centralized { s with rank := r } ir ic data n =
      Option.map (fun t => { t with rank := r })
        (MumpsSolver.set_rcd_centralized s ir ic data n) ∧
    MumpsSolver.set_mtx_centralized { s with rank := r } mtx =
      Option.map (fun t => { t with rank := r })
        (MumpsSolver.set_mtx_centralized s mtx) :=
  ⟨set_rhs_rank_comm s r rhs, rfl, set_rcd_rank_comm s r ir ic data n,
    set_mtx_rank_comm s r mtx⟩

/-! ## Symmetric upper-triangle filtering -/

/-- The entries of a COO matrix that survive the symmetric filter, on the
original zero-based coordinates: those with column index ≥ row index, in
their original order (the claim's description of the retained set). -/
def keptEntries (mtx : MumpsSolver.COO) : List ((Int × Int) × Int) :=
  ((mtx.row.val.zip mtx.col.val).zip mtx.data.val).filter
    (fun q => decide (q.1.1 ≤ q.1.2))

/-- Applying the boolean mask `cc >= rr` to the three parallel arrays is
the same as filtering the zipped entries on `col ≥ row` (zero-based) and
projecting. -/
theorem maskFilter_spec (rs cs ds : List Int)
    (h1 : rs.length = cs.length) (h2 : cs.length = ds.length) :
    MumpsSolver.maskFilter
        (((rs.map (· + 1)).zip (cs.map (· + 1))).map
          (fun p => decide (p.1 ≤ p.2))) (rs.map (· + 1)) =
      (((rs.zip cs).zip ds).filter (fun q => decide (q.1.1 ≤ q.1.2))).map
        (fun q => q.1.1 + 1) ∧
    MumpsSolver.maskFilter
        (((rs.map (· + 1)).zip (cs.map (· + 1))).map
          (fun p => decide (p.1 ≤ p.2))) (cs.map (· + 1)) =
      (((rs.zip cs).zip ds).filter (fun q => decide (q.1.1 ≤ q.1.2))).map
        (fun q => q.1.2 + 1) ∧
    MumpsSolver.maskFilter
        (((rs.map (· + 1)).zip (cs.map (· + 1))).map
          (fun p => decide (p.1 ≤ p.2))) ds =
      (((rs.zip cs).zip ds).filter (fun q => decide (q.1.1 ≤ q.1.2))).map
        (fun q => q.2) := by
  induction rs generalizing cs ds with
  | nil =>
    cases cs with
    | nil =>
      cases ds with
      | nil => exact ⟨rfl, rfl, rfl⟩
      | cons d dt => simp at h2
    | cons c ct => simp at h1
  | cons r rt ih =>
    cases cs with
    | nil => simp at h1
    | cons c ct =>
      cases ds with
      | nil => simp at h2
      | cons d dt =>
        obtain ⟨ha, hb, hc2⟩ := ih ct dt (by simpa using h1) (by simpa using h2)
        simp only [List.zip] at ha hb hc2
        by_cases hle : r ≤ c
        · have e1 : decide ((r + 1 : Int) ≤ c + 1) = true :=
            decide_eq_true (by omega)
          have e2 : decide (r ≤ c) = true := decide_eq_true hle
          simp only [List.zip, List.map_cons, List.zipWith_cons_cons,
            List.filter_cons, MumpsSolver.maskFilter, e1, e2, if_true]
          exact ⟨by rw [ha], by rw [hb], by rw [hc2]⟩
        · have e1 : decide ((r + 1 : Int) ≤ c + 1) = false :=
            decide_eq_false (by omega)
          have e2 : decide (r ≤ c) = false := decide_eq_false hle
          simp only [List.zip, List.map_cons, List.zipWith_cons_cons,
            List.filter_cons, MumpsSolver.maskFilter, e1, e2, if_false,
            Bool.false_eq_true]
          exact ⟨ha, hb, hc2⟩

/-- Filtering the zipped entries on a predicate of the coordinate pair
and counting matches the count over the coordinate pairs alone. -/
theorem zip_filter_fst_length (l : List (Int × Int)) (zs : List Int)
    (h : l.length = zs.length) (p : Int × Int → Bool) :
    ((l.zip zs).filter (fun q => p q.1)).length = l.countP p := by
  induction l generalizing zs with
  | nil => simp
  | cons a lt ih =>
    cases zs with
    | nil => simp at h
    | cons z zt =>
      simp only [List.zip_cons_cons, List.filter_cons, List.countP_cons]
      by_cases hp : p a
      · simp only [hp, if_true, List.length_cons, ih zt (by simpa using h)]
      · simp only [hp, if_false, Bool.false_eq_true,
          ih zt (by simpa using h)]
        simp

/-- C5: on a symmetric solver (`sym > 0`), `set_mtx_centralized` retains
exactly the coordinate entries whose 1-based column index is ≥ their
1-based row index — equivalently, those whose zero-based column is ≥
their zero-based row — in their original relative order with unchanged
values, and the retained count equals the count of zero-based pairs with
column ≥ row; on a non-symmetric solver every entry is retained. -/
theorem C5_symmetric_upper_triangle (s : MumpsSolver) (mtx : MumpsSolver.COO)
    (hsq : mtx.shape.1 = mtx.shape.2)
    (h1 : mtx.row.val.length = mtx.col.val.length)
    (h2 : mtx.col.val.length = mtx.data.val.length) :
    ∃ s1, MumpsSolver.set_mtx_centralized s mtx = some s1 ∧
      (0 < s.struct.sym →
        ∃ pI pC pD : NArr,
          List.lookup "ir" s1._data = some pI ∧
          List.lookup "ic" s1._data = some pC ∧
          List.lookup "data" s1._data = some pD ∧
          pI.val = (keptEntries mtx).map (fun q => q.1.1 + 1) ∧
          pC.val = (keptEntries mtx).map (fun q => q.1.2 + 1) ∧
          pD.val = (keptEntries mtx).map (fun q => q.2) ∧
          s1.struct.nz = (keptEntries mtx).length ∧
          (keptEntries mtx).length =
            (mtx.row.val.zip mtx.col.val).countP
              (fun q => decide (q.1 ≤ q.2))) ∧
      (s.struct.sym ≤ 0 →
        ∃ pI pC pD : NArr,
          List.lookup "ir" s1._data = some pI ∧
          List.lookup "ic" s1._data = some pC ∧
          List.lookup "data" s1._data = some pD ∧
          pI.val = mtx.row.val.map (· + 1) ∧
          pC.val = mtx.col.val.map (· + 1) ∧
          pD.val = mtx.data.val ∧
          s1.struct.nz = mtx.row.val.length) := by
  obtain ⟨ha, hb, hc2⟩ := maskFilter_spec mtx.row.val mtx.col.val mtx.data.val h1 h2
  have hcnt : (keptEntries mtx).length =
      (mtx.row.val.zip mtx.col.val).countP (fun q => decide (q.1 ≤ q.2)) := by
    rw [keptEntries]
    exact zip_filter_fst_length (mtx.row.val.zip mtx.col.val) mtx.data.val
      (by rw [List.length_zip, h1, h2, Nat.min_self])
      (fun q => decide (q.1 ≤ q.2))
  rw [MumpsSolver.set_mtx_centralized, if_pos hsq]
  by_cases hsym : s.struct.sym > 0
  · rw [if_pos hsym, MumpsSolver.set_rcd_centralized, if_pos ?hlen]
    case hlen =>
      rw [ha, hb, hc2]
      simp [List.length_map]
    refine ⟨_, rfl, fun _ => ?_, fun hcon => absurd hsym (not_lt.mpr hcon)⟩
    exact ⟨⟨s.next_id, MumpsSolver.maskFilter
          (((mtx.row.val.map (· + 1)).zip (mtx.col.val.map (· + 1))).map
            (fun p => decide (p.1 ≤ p.2))) (mtx.row.val.map (· + 1))⟩,
      ⟨s.next_id + 1, MumpsSolver.maskFilter
          (((mtx.row.val.map (· + 1)).zip (mtx.col.val.map (· + 1))).map
            (fun p => decide (p.1 ≤ p.2))) (mtx.col.val.map (· + 1))⟩,
      ⟨s.next_id + 2, MumpsSolver.maskFilter
          (((mtx.row.val.map (· + 1)).zip (mtx.col.val.map (· + 1))).map
            (fun p => decide (p.1 ≤ p.2))) mtx.data.val⟩,
      by
        dsimp only
        rw [lookup_dictUpd_ne _ _ _ _ (by decide),
          lookup_dictUpd_ne _ _ _ _ (by decide), lookup_dictUpd_self],
      by
        dsimp only
        rw [lookup_dictUpd_ne _ _ _ _ (by decide), lookup_dictUpd_self],
      by
        dsimp only
        rw [lookup_dictUpd_self],
      by simp only [keptEntries]; exact ha,
      by simp only [keptEntries]; exact hb,
      by simp only [keptEntries]; exact hc2,
      by
        dsimp only
        simp only [keptEntries]
        rw [ha, List.length_map],
      hcnt⟩
  · rw [if_neg hsym, MumpsSolver.set_rcd_centralized, if_pos ?hlen2]
    case hlen2 => simp [List.length_map, h1, h2]
    refine ⟨_, rfl, fun hcon => absurd hcon hsym, fun _ => ?_⟩
    exact ⟨⟨s.next_id, mtx.row.val.map (· + 1)⟩,
      ⟨s.next_id + 1, mtx.col.val.map (· + 1)⟩, mtx.data,
      by
        dsimp only
        rw [lookup_dictUpd_ne _ _ _ _ (by decide),
          lookup_dictUpd_ne _ _ _ _ (by decide), lookup_dictUpd_self],
      by
        dsimp only
        rw [lookup_dictUpd_ne _ _ _ _ (by decide), lookup_dictUpd_self],
      by
        dsimp only
        rw [lookup_dictUpd_self],
      rfl, rfl, rfl,
      by
        dsimp only
        rw [List.length_map]⟩

def wMtx : MumpsSolver.COO :=
  ⟨⟨21, [0, 1, 1]⟩, ⟨22, [1, 0, 1]⟩, ⟨23, [10, 20, 30]⟩, (2, 2)⟩

theorem C5_witness :
    (wMtx.shape.1 = wMtx.shape.2 ∧ wMtx.row.val.length = wMtx.col.val.length ∧
      wMtx.col.val.length = wMtx.data.val.length ∧
      0 < (init_solver true 0 20).struct.sym) ∧
    ∃ s1, MumpsSolver.set_mtx_centralized (init_solver true 0 20) wMtx =
        some s1 ∧ s1.struct.nz = 2 := by
  refine ⟨⟨by decide, by decide, by decide, by decide⟩, ?_⟩
  obtain ⟨s1, hs, hsym, -⟩ :=
    C5_symmetric_upper_triangle (init_solver true 0 20) wMtx
      (by decide) (by decide) (by decide)
  obtain ⟨pI, pC, pD, -, -, -, -, -, -, hnz, hcnt⟩ := hsym (by decide)
  refine ⟨s1, hs, ?_⟩
  rw [hnz, hcnt]
  decide

/-- C7: `get_schur` on a variable list of length `n` allocates a dense
output buffer of size `n²` and a condensed right-hand-side buffer of
size `n`, configures the Schur fields (`size_schur`, `listvar_schur`,
`schur`, `lredrhs`, `redrhs`, `schur_lld`) and the 1×1 block-cyclic grid
with block size 100 (`nprow = npcol = 1`, `mblock = nblock = 100`), sets
`icntl[18] = 3` (centralized column-stored Schur complement) and invokes
job 4 (analyze+factorize), then sets `icntl[25] = 1`
(reduction/condensation phase) and invokes job 3 (solve), finally
returning the dense buffer reshaped to `n × n` and the length-`n`
condensed right-hand side. -/
theorem C7_get_schur_protocol (lib : MLib) (s : MumpsSolver) (sl : NArr) :
    ∃ s2 mat r c srhs,
      MumpsSolver.get_schur lib s sl = some (s2, (mat, r, c), srhs) ∧
      r = sl.val.length ∧ c = sl.val.length ∧
      mat.val.length = sl.val.length ^ 2 ∧
      srhs.val.length = sl.val.length ∧
      ∃ st1 : CStruct,
        st1 = { s.struct with
          size_schur := sl.val.length,
          listvar_schur := sl.id,
          schur := mat.id,
          lredrhs := sl.val.length,
          redrhs := srhs.id,
          schur_lld := sl.val.length,
          nprow := 1, npcol := 1, mblock := 100, nblock := 100,
          icntl := s.struct.icntl.set 18 3, job := 4 } ∧
        s2.calls = s.calls ++
          [st1, { lib st1 with icntl := (lib st1).icntl.set 25 1, job := 3 }] := by
  have hres : MumpsSolver.reshape
      ⟨s.next_id, List.replicate (sl.val.length ^ 2) 0⟩
      sl.val.length sl.val.length =
      some (⟨s.next_id, List.replicate (sl.val.length ^ 2) 0⟩,
        sl.val.length, sl.val.length) := by
    rw [MumpsSolver.reshape, if_pos]
    show (List.replicate (sl.val.length ^ 2) (0 : Int)).length =
      sl.val.length * sl.val.length
    rw [List.length_replicate, sq]
  rw [MumpsSolver.get_schur, hres]
  simp only [Option.map]
  refine ⟨_, _, _, _, _, rfl, rfl, rfl, ?_, ?_, ?_⟩
  · exact List.length_replicate _ _
  · exact List.length_replicate _ _
  · refine ⟨_, rfl, ?_⟩
    rw [MumpsSolver.mumps_c, MumpsSolver.mumps_c]
    dsimp only
    rw [List.append_assoc]
    rfl

/-! ## Status checking and teardown -/

/-- A foreign library behaviour that reports failure status -9 on every
call. -/
def negLib : MLib := fun st => { st with infog0 := -9 }

/-- The identity foreign library behaviour (leaves the struct unchanged,
reporting the non-negative status already present). -/
def idLib : MLib := fun st => st

/-- C4 counterexample: with a library behaviour that reports the negative
status -9, the status-checked path (`_mumps_call`) fails, but `get_schur`
on the same behaviour completes normally — returning its result while the
global-info status is negative — because its two foreign invocations
bypass the status check.  This refutes the claim that after every job
invocation, including those inside `get_schur`, the wrapper fails iff the
status is negative. -/
theorem C4_counterexample :
    MumpsSolver.mumps_call negLib 4 (init_solver false 0 20) =
      Except.error (MumpsError.runtime_error (-9)) ∧
    ∃ out, MumpsSolver.get_schur negLib (init_solver false 0 20)
        ⟨31, [1, 2]⟩ = some out ∧ out.1.struct.infog0 = -9 :=
  ⟨rfl, ⟨_, rfl, rfl⟩⟩

/-- A foreign call never changes the Python-side `_data` dictionary. -/
theorem mumps_c_data (lib : MLib) (t : MumpsSolver) :
    (MumpsSolver.mumps_c lib t)._data = t._data := rfl

/-- C4 amended: job invocations issued through `_mumps_call` (used by
`__init__`, `__call__` and `__del__`) inspect the first global-info entry
and fail with the raw code exactly when it is negative; the two foreign
invocations inside `get_schur` and the one inside `expand_schur` call the
library directly without the status check — `get_schur` always returns
normally, and the outcome of `expand_schur` does not depend on the
library behaviour (in particular not on the reported status). -/
theorem C4_amended_status_check (lib lib2 : MLib) (job : Int)
    (s : MumpsSolver) (sl : NArr) (x2 : List Int) :
    (∀ e, MumpsSolver.mumps_call lib job s = Except.error e ↔
      ((lib { s.struct with job := job }).infog0 < 0 ∧
        e = MumpsError.runtime_error
          (lib { s.struct with job := job }).infog0)) ∧
    (MumpsSolver.get_schur lib s sl).isSome = true ∧
    (MumpsSolver.expand_schur lib s x2).isSome =
      (MumpsSolver.expand_schur lib2 s x2).isSome := by
  refine ⟨?_, ?_, ?_⟩
  · intro e
    have hst : (MumpsSolver.mumps_c lib
        { s with struct := { s.struct with job := job } }).struct =
        lib { s.struct with job := job } := rfl
    rw [MumpsSolver.mumps_call, hst]
    by_cases hc : (lib { s.struct with job := job }).infog0 < 0
    · rw [if_pos hc]
      simp only [Except.error.injEq]
      constructor
      · intro he
        exact ⟨hc, he.symm⟩
      · intro ⟨_, he⟩
        exact he.symm
    · rw [if_neg hc]
      simp only [reduceCtorEq, false_iff]
      intro ⟨hcon, _⟩
      exact hc hcon
  · have hres : MumpsSolver.reshape
        ⟨s.next_id, List.replicate (sl.val.length ^ 2) 0⟩
        sl.val.length sl.val.length =
        some (⟨s.next_id, List.replicate (sl.val.length ^ 2) 0⟩,
          sl.val.length, sl.val.length) := by
      rw [MumpsSolver.reshape, if_pos]
      show (List.replicate (sl.val.length ^ 2) (0 : Int)).length =
        sl.val.length * sl.val.length
      rw [List.length_replicate, sq]
    rw [MumpsSolver.get_schur, hres]
    rfl
  · rw [MumpsSolver.expand_schur, MumpsSolver.expand_schur]
    cases s._schur_rhs with
    | none => rfl
    | some srhs =>
      simp only
      by_cases hlen : x2.length = srhs.val.length
      · rw [if_pos hlen, if_pos hlen]
        rw [mumps_c_data, mumps_c_data]
        dsimp only
        cases List.lookup "rhs" s._data with
        | none => rfl
        | some r => rfl
      · rw [if_neg hlen, if_neg hlen]

/-- `{ s with released := true }` is `s` itself once `s` is released. -/
theorem released_eta (s : MumpsSolver) (h : s.released = true) :
    { s with released := true } = s := by
  cases s
  simp only at h
  rw [h]

/-- C8: teardown is idempotent — running the destructor on a solver it
already released succeeds, invokes no foreign job, and leaves the state
bit-for-bit unchanged (the result is the released solver itself, so the
call trace gains no entry and the SolverState is not touched). -/
theorem C8_teardown_idempotent (lib : MLib) (s s1 : MumpsSolver)
    (h : MumpsSolver.finalize lib s = Except.ok s1) :
    MumpsSolver.finalize lib s1 = Except.ok s1 := by
  rw [MumpsSolver.finalize] at h ⊢
  have hrel : s1.released = true := by
    by_cases hr : s.released
    · rw [if_pos hr] at h
      injection h with h
      rw [← h]
    · rw [if_neg hr] at h
      cases hc : MumpsSolver.mumps_call lib (-2) s with
      | error e =>
        rw [hc] at h
        exact absurd h (by simp [Except.map])
      | ok t =>
        rw [hc] at h
        simp only [Except.map, Except.ok.injEq] at h
        rw [← h]
  rw [if_pos hrel, released_eta s1 hrel]

def releasedSolver : MumpsSolver :=
  { init_solver false 0 20 with
    struct := { init_struct false 20 with job := -2 },
    calls := [{ init_struct false 20 with job := -2 }],
    released := true }

theorem C8_witness :
    MumpsSolver.finalize idLib (init_solver false 0 20) =
      Except.ok releasedSolver ∧
    MumpsSolver.finalize idLib releasedSolver = Except.ok releasedSolver :=
  ⟨by rfl, C8_teardown_idempotent idLib (init_solver false 0 20)
    releasedSolver (by rfl)⟩
